import Mathlib

/-!
Verification of the collaborative grid synchronization engine of the
`paintworld` repository: grid addressing, stroke rasterization
(Bresenham), the local cell cache and its reconciliation with realtime
events, the write batcher, the charge ledger, and the chunked paint
grid.  Every definition is a shallow embedding of the corresponding
JavaScript/TypeScript source; machine numbers are modelled as `Int`/`Nat`
(the quantities involved are exact integers in the source) and the
Web-Mercator coordinates as rationals.
-/

namespace Paintworld

/-! ## Definitions -/

/-! ### Association-list maps

JavaScript `Map` objects keyed by the cell key and accessed through
`get`/`set`/`delete`/`has` are embedded as association lists keyed by the
integer pair `(x, y)`.  The source builds string keys of the form
x-comma-y (`getPaintKey`, `hashCoordinate`), which is injective on
integer pairs, so keying directly by the pair is faithful. -/

/-- Lookup in an association list, mirroring `Map.get`. -/
def mapFind? {α : Type} (k : Int × Int) : List ((Int × Int) × α) → Option α
  | [] => none
  | (k', v) :: rest => if k' = k then some v else mapFind? k rest

/-- Insertion into an association list, mirroring `Map.set`: the new
binding replaces any previous binding of the same key. -/
def mapSet {α : Type} (m : List ((Int × Int) × α)) (k : Int × Int) (v : α) :
    List ((Int × Int) × α) :=
  (k, v) :: m.filter (fun p => p.1 ≠ k)

/-- Deletion from an association list, mirroring `Map.delete`. -/
def mapDelete {α : Type} (m : List ((Int × Int) × α)) (k : Int × Int) :
    List ((Int × Int) × α) :=
  m.filter (fun p => p.1 ≠ k)

/-! ### Grid addressing (`gridCoordsFromLatLng`, `CollaborativeCanvas.jsx`)

The source projects `(lng, lat)` to Web-Mercator metres
(`toWebMercator`, an external projection using `log`/`tan`), then maps
the mercator coordinate to a grid cell:

```
const gridX = Math.floor((x + 20037508.34) / CELL_SIZE_METERS);
const gridY = Math.floor((y + 20037508.34) / CELL_SIZE_METERS);
return \x7b gridX: Math.max(0, Math.min(1999999, gridX)),
         gridY: Math.max(0, Math.min(1999999, gridY)) \x7d;
```

The divide/floor/clamp stage is embedded over exact rationals, taking
the projected mercator coordinate as input. -/

/-- Cell edge length in metres, `CELL_SIZE_METERS = 20.0375`. -/
def CELL_SIZE_METERS : ℚ := 200375 / 10000

/-- Half the width of the Web-Mercator world, `20037508.34` metres. -/
def MERCATOR_OFFSET : ℚ := 2003750834 / 100

/-- Divide-floor-clamp of one axis, from `gridCoordsFromLatLng`. -/
def gridAxis (c : ℚ) : Int :=
  max 0 (min 1999999 ⌊(c + MERCATOR_OFFSET) / CELL_SIZE_METERS⌋)

/-- The grid cell for a projected mercator coordinate, from
`gridCoordsFromLatLng` (lines 63-68 of `CollaborativeCanvas.jsx`). -/
def gridCoordsFromMercator (x y : ℚ) : Int × Int :=
  (gridAxis x, gridAxis y)

/-! ### The local cell cache of `PaintCanvas.tsx`

State of the `PaintCanvas` component: the `paints` map, the
`pendingPaints` map of optimistic local writes, the append-only
`paintBatch.paints` array, the session user, and a counter of render
callbacks (`renderCanvas` / `scheduleCanvasRender` invocations). -/

/-- A row of the `paints` map (interface `Paint` in `lib/supabase.ts`);
`color = none` is the erased value (`color: string | null`). -/
structure Paint where
  x : Int
  y : Int
  color : Option String
  owner : String
  owner_name : Option String
  owner_avatar : Option String
deriving DecidableEq, Repr

/-- An optimistic local write (interface `PendingPaint` in
`PaintCanvas.tsx`). -/
structure PendingPaint where
  x : Int
  y : Int
  color : Option String
  owner : String
  timestamp : Int
deriving DecidableEq, Repr

/-- Payload of a realtime `paint` message (interface `PaintUpdate`). -/
structure PaintUpdate where
  x : Int
  y : Int
  color : Option String
  owner : String
  owner_name : Option String
  owner_avatar : Option String
  timestamp : Int
deriving DecidableEq, Repr

/-- Payload of a realtime `delete` message (interface `PaintDelete`). -/
structure PaintDelete where
  x : Int
  y : Int
  owner : String
  timestamp : Int
deriving DecidableEq, Repr

/-- The tagged realtime message union (`RealtimeMessage` in
`lib/supabase.ts`). -/
inductive RealtimeMessage where
  | paint (data : PaintUpdate)
  | delete (data : PaintDelete)
  | ping (timestamp : Int)
deriving DecidableEq, Repr

/-- The reactive state of the `PaintCanvas` component that the paint
pipeline reads and writes. -/
structure CanvasState where
  userId : Option String
  userName : String
  userAvatar : String
  paints : List ((Int × Int) × Paint)
  pendingPaints : List ((Int × Int) × PendingPaint)
  paintBatch : List PaintUpdate
  renders : Nat
deriving DecidableEq, Repr

/-- `handleRealtimeUpdate` of `PaintCanvas.tsx` (lines 204-247): on a
`paint` message, return early when `owner === userId`, otherwise delete
the key when `color` is null and set it otherwise, then schedule one
canvas render; on a `delete` message, return early when
`owner === userId`, otherwise delete the key and schedule one render;
other message kinds are ignored. -/
def handleRealtimeUpdate (st : CanvasState) (msg : RealtimeMessage) : CanvasState :=
  match msg with
  | .paint d =>
    if st.userId = some d.owner then st
    else
      let key := (d.x, d.y)
      let paints' :=
        match d.color with
        | none => mapDelete st.paints key
        | some c =>
          mapSet st.paints key
            ⟨d.x, d.y, some c, d.owner, d.owner_name, d.owner_avatar⟩
      { st with paints := paints', renders := st.renders + 1 }
  | .delete d =>
    if st.userId = some d.owner then st
    else
      { st with paints := mapDelete st.paints (d.x, d.y),
                renders := st.renders + 1 }
  | .ping _ => st

/-- `handlePaint` of `PaintCanvas.tsx` (lines 298-362): no-op without a
user; otherwise record the pending optimistic write, set the cell in
`paints`, render once, and append the update to the paint batch (the
broadcast to the realtime channel leaves the local state unchanged).
`now` stands for `Date.now()`. -/
def handlePaint (st : CanvasState) (now : Int) (x y : Int) (color : String) :
    CanvasState :=
  match st.userId with
  | none => st
  | some uid =>
    let key := (x, y)
    { st with
      pendingPaints := mapSet st.pendingPaints key ⟨x, y, some color, uid, now⟩,
      paints := mapSet st.paints key
        ⟨x, y, some color, uid, some st.userName, some st.userAvatar⟩,
      renders := st.renders + 1,
      paintBatch := st.paintBatch ++
        [⟨x, y, some color, uid, some st.userName, some st.userAvatar, now⟩] }

/-- Well-formedness of a session: every pending optimistic write was
created by `handlePaint` and therefore carries the session's own user
id. -/
def PendingOwned (st : CanvasState) : Prop :=
  ∀ kv ∈ st.pendingPaints, some kv.2.owner = st.userId

/-! ### Stroke rasterizer (`getLineCells`, `CollaborativeCanvas.jsx` lines 250-278)

The integer Bresenham loop.  The source's `while (true)` loop is
embedded with a fuel parameter; `getLineCells` supplies
`dx + dy + 1` units of fuel, which the length theorem proves sufficient
(the loop runs `max(dx, dy) + 1` iterations). -/

/-- One grid cell produced by the rasterizer. -/
structure Cell where
  x : Int
  y : Int
deriving DecidableEq, Repr

/-- The body of the `while (true)` loop of `getLineCells`: push the
current point; stop on the endpoint; otherwise step `x` when
`2*err > -dy` and step `y` when `2*err < dx`, updating `err` by `-dy`
and `+dx` respectively. -/
def bresLoop (x1 y1 dx dy sx sy : Int) : Nat → Int → Int → Int → List Cell
  | 0, _, _, _ => []
  | fuel + 1, x, y, err =>
    if x = x1 ∧ y = y1 then [⟨x, y⟩]
    else
      let e2 := 2 * err
      let x' := if e2 > -dy then x + sx else x
      let err' := if e2 > -dy then err - dy else err
      let y' := if e2 < dx then y + sy else y
      let err'' := if e2 < dx then err' + dx else err'
      ⟨x, y⟩ :: bresLoop x1 y1 dx dy sx sy fuel x' y' err''

/-- `getLineCells(x0, y0, x1, y1)`: Bresenham rasterization from
`(x0, y0)` to `(x1, y1)` with `dx = |x1-x0|`, `dy = |y1-y0|`,
`sx = x0 < x1 ? 1 : -1`, `sy = y0 < y1 ? 1 : -1`, `err = dx - dy`. -/
def getLineCells (x0 y0 x1 y1 : Int) : List Cell :=
  let dx := |x1 - x0|
  let dy := |y1 - y0|
  let sx : Int := if x0 < x1 then 1 else -1
  let sy : Int := if y0 < y1 then 1 else -1
  bresLoop x1 y1 dx dy sx sy (dx + dy + 1).toNat x0 y0 (dx - dy)

/-! ### The `CollaborativeCanvas.jsx` cache, write buffer, and flush -/

/-- The session user of `CollaborativeCanvas.jsx` (`user.id` plus the
resolved display name — the source's name fallback chain
`user_metadata.name`, then the email local part, then `Anonymous` — and
the optional avatar reference). -/
structure JsxUser where
  id : String
  name : String
  avatar : Option String
deriving DecidableEq, Repr

/-- A value of the `paintedCells` map. -/
structure CellInfo where
  color : String
  owner : Option String
  owner_name : String
  owner_avatar : Option String
deriving DecidableEq, Repr

/-- A value of the `paintBuffer` map (the pending write recorded by
`paintPixelInstant`); `color = none` is an erase, and
`spendCharge = (color !== null)`. -/
structure BufferedWrite where
  gridX : Int
  gridY : Int
  color : Option String
  timestamp : Int
  spendCharge : Bool
deriving DecidableEq, Repr

/-- The reactive state of `CollaborativeCanvas.jsx` touched by the
paint pipeline. -/
structure JsxState where
  user : Option JsxUser
  paintedCells : List ((Int × Int) × CellInfo)
  paintBuffer : List ((Int × Int) × BufferedWrite)
  userCharges : Int
  userCapacity : Int
  renders : Nat
deriving DecidableEq, Repr

/-- `paintPixelInstant` of `CollaborativeCanvas.jsx` (lines 111-147):
update `paintedCells` instantly (delete the key on an erase, set it on
a paint), draw or clear the pixel (one render), and record the pending
write in `paintBuffer` keyed by the cell, overwriting any previous
pending write for that key.  `now` stands for `Date.now()`. -/
def paintPixelInstant (st : JsxState) (now gridX gridY : Int) (color : Option String) :
    JsxState :=
  let key := (gridX, gridY)
  let paintedCells' :=
    match color with
    | none => mapDelete st.paintedCells key
    | some c =>
      mapSet st.paintedCells key
        ⟨c, st.user.map JsxUser.id,
         (match st.user with | none => "Anonymous" | some u => u.name),
         Option.bind st.user JsxUser.avatar⟩
  { st with
    paintedCells := paintedCells',
    renders := st.renders + 1,
    paintBuffer := mapSet st.paintBuffer key ⟨gridX, gridY, color, now, color.isSome⟩ }

/-- An enqueue into the write buffer: one `paintPixelInstant` call. -/
structure EnqueueOp where
  now : Int
  gridX : Int
  gridY : Int
  color : Option String
deriving DecidableEq, Repr

/-- Apply one enqueue to the component state. -/
def enqueueStep (st : JsxState) (e : EnqueueOp) : JsxState :=
  paintPixelInstant st e.now e.gridX e.gridY e.color

/-- The buffer entry an enqueue produces. -/
def toBuffered (e : EnqueueOp) : BufferedWrite :=
  ⟨e.gridX, e.gridY, e.color, e.now, e.color.isSome⟩

/-- The flush's partition of the buffered batch (lines 156-161 of
`CollaborativeCanvas.jsx`): `batch = Array.from(paintBuffer.values())`,
`paints = batch.filter(p => p.color !== null)`,
`erases = batch.filter(p => p.color === null)`. -/
def flushPartition (buffer : List ((Int × Int) × BufferedWrite)) :
    List BufferedWrite × List BufferedWrite :=
  let batch := buffer.map Prod.snd
  (batch.filter (fun p => p.color ≠ none), batch.filter (fun p => p.color = none))

/-- A row of the persistent `paints` table (schema
`database-schema.sql`: `id` is the `BIGSERIAL` primary key and `(x, y)`
is unique). -/
structure Row where
  id : Nat
  x : Int
  y : Int
  color : String
  owner : String
deriving DecidableEq, Repr

/-- One iteration of the erase loop of the batched-write flush
(`CollaborativeCanvas.jsx` lines 184-203): select the row at
`(x, y)` owned by the requesting user; when absent, do nothing (the
select error is discarded, nothing is surfaced); when present, delete
that row by its id and then restore one charge, capped at capacity. -/
def eraseOne (uid : String) (capacity : Int) (store : List Row) (charges : Int)
    (e : BufferedWrite) : List Row × Int :=
  match store.find? (fun r => decide (r.x = e.gridX ∧ r.y = e.gridY ∧ r.owner = uid)) with
  | none => (store, charges)
  | some row =>
    (store.filter (fun r => r.id ≠ row.id),
     if charges < capacity then min capacity (charges + 1) else charges)

/-- The erase half of a flush: the per-erase loop over the batch. -/
def eraseFlush (uid : String) (capacity : Int) (store : List Row) (charges : Int)
    (erases : List BufferedWrite) : List Row × Int :=
  erases.foldl (fun acc e => eraseOne uid capacity acc.1 acc.2 e) (store, charges)

/-! ### The charge ledger

`tryConsume` embeds the admission-and-decrement of `paintPixel`
(`PAINTING_OPTIMIZATIONS.md`, `PixelCanvas`): a paint is refused with
no state change when `charges <= 0`, and otherwise spends one charge
via `setCharges(prev => Math.max(0, prev - 1))`.  `refund` embeds the
erase-confirmation path of `CollaborativeCanvas.jsx` lines 197-200.
Modelled from the spec: `tick` — lazy regeneration
(`gained = floor(elapsed / regenIntervalSeconds)`; add `gained` capped
at capacity and advance `lastRefillAt` by `gained * regenIntervalSeconds`)
is performed by the persistent store and has no client-side source in
the repository. -/

/-- A per-user charge ledger entry (`user_paints` row: `capacity`,
`charges`, `regen_seconds`, `last_refill_at`). -/
structure ChargeLedger where
  capacity : Int
  charges : Int
  regenSeconds : Int
  lastRefillAt : Int
deriving DecidableEq, Repr

/-- Consume one charge if any is available. -/
def tryConsume (l : ChargeLedger) : Bool × ChargeLedger :=
  if l.charges ≤ 0 then (false, l)
  else (true, { l with charges := max 0 (l.charges - 1) })

/-- Restore one charge, capped at capacity. -/
def refund (l : ChargeLedger) : ChargeLedger :=
  if l.charges < l.capacity then { l with charges := min l.capacity (l.charges + 1) }
  else l

/-- Lazy regeneration at time `now` (modelled from the spec, see
above). -/
def tick (l : ChargeLedger) (now : Int) : ChargeLedger :=
  let elapsed := now - l.lastRefillAt
  let gained := Int.fdiv elapsed l.regenSeconds
  if 0 < gained then
    { l with charges := min l.capacity (l.charges + gained),
             lastRefillAt := l.lastRefillAt + gained * l.regenSeconds }
  else l

/-- A charge-ledger operation. -/
inductive LedgerOp where
  | consume
  | refundOp
  | tickOp (now : Int)
deriving DecidableEq, Repr

/-- Apply one ledger operation (the boolean result of a consume is
discarded when sequencing). -/
def applyLedgerOp (l : ChargeLedger) : LedgerOp → ChargeLedger
  | .consume => (tryConsume l).2
  | .refundOp => refund l
  | .tickOp now => tick l now

/-! ### The chunked paint grid (`PaintGrid`, `lib/performance.ts` lines 188-240) -/

/-- Pixels per chunk (`chunkSize = 1000`). -/
def chunkSize : Nat := 1000

/-- Value of one hexadecimal digit character, as `parseInt(-, 16)`
reads it (decimal digits, lowercase `a`-`f`, uppercase `A`-`F`);
`none` for a non-digit. -/
def hexDigitVal (ch : Char) : Option Nat :=
  if 48 ≤ ch.toNat ∧ ch.toNat ≤ 57 then some (ch.toNat - 48)
  else if 97 ≤ ch.toNat ∧ ch.toNat ≤ 102 then some (ch.toNat - 87)
  else if 65 ≤ ch.toNat ∧ ch.toNat ≤ 70 then some (ch.toNat - 55)
  else none

/-- Character of a string at an index (out of range yields a blank,
which no hex parse accepts). -/
def charAt (s : String) (i : Nat) : Char :=
  s.data.getD i ' '

/-- `parseInt` of a two-character hex slice. -/
def parseHexByte (c1 c2 : Char) : Option Nat :=
  match hexDigitVal c1, hexDigitVal c2 with
  | some v1, some v2 => some (16 * v1 + v2)
  | _, _ => none

/-- Lowercase hex digit character for a value below 16
(`Number.prototype.toString(16)` renders lowercase). -/
def hexChar (n : Nat) : Char :=
  if n < 10 then Char.ofNat (48 + n) else Char.ofNat (87 + n)

/-- `n.toString(16).padStart(2, '0')` for a byte value. -/
def toHex2 (n : Nat) : String :=
  String.mk [hexChar (n / 16 % 16), hexChar (n % 16)]

/-- The chunked paint storage: a map from chunk coordinates to a byte
store (`Uint8Array`, embedded as a function defaulting to `0` with
stores reduced mod 256).  The source keys chunks by the string
x-comma-y of the chunk coordinates, injective on the pair. -/
structure PaintGrid where
  grid : (Nat × Nat) → Option (Nat → Nat)

/-- `PaintGrid.setPaint` (lines 192-214): locate the chunk (allocating
a zeroed one when absent), compute the pixel's base index, parse the
three color bytes from the hex string (`parseInt` of a failed parse is
`NaN`, which a `Uint8Array` stores as `0`), and store them. -/
def setPaint (g : PaintGrid) (x y : Nat) (color : String) : PaintGrid :=
  let key := (x / chunkSize, y / chunkSize)
  let chunk := (g.grid key).getD (fun _ => 0)
  let localX := x % chunkSize
  let localY := y % chunkSize
  let index := (localY * chunkSize + localX) * 3
  let r := ((parseHexByte (charAt color 1) (charAt color 2)).getD 0) % 256
  let gv := ((parseHexByte (charAt color 3) (charAt color 4)).getD 0) % 256
  let b := ((parseHexByte (charAt color 5) (charAt color 6)).getD 0) % 256
  let chunk' : Nat → Nat := fun i =>
    if i = index then r else if i = index + 1 then gv
    else if i = index + 2 then b else chunk i
  ⟨fun k => if k = key then some chunk' else g.grid k⟩

/-- `PaintGrid.getPaint` (lines 216-235): `null` when the chunk is
absent or all three stored bytes are zero; otherwise the bytes
re-rendered as a lowercase hex color. -/
def getPaint (g : PaintGrid) (x y : Nat) : Option String :=
  let key := (x / chunkSize, y / chunkSize)
  match g.grid key with
  | none => none
  | some chunk =>
    let localX := x % chunkSize
    let localY := y % chunkSize
    let index := (localY * chunkSize + localX) * 3
    let r := chunk index
    let gv := chunk (index + 1)
    let b := chunk (index + 2)
    if r = 0 ∧ gv = 0 ∧ b = 0 then none
    else some ("#" ++ toHex2 r ++ toHex2 gv ++ toHex2 b)

/-- A syntactically valid 7-character hex color: a hash sign followed
by six hex digits. -/
def ValidHexColor (c : String) : Prop :=
  ∃ d1 d2 d3 d4 d5 d6 : Char,
    c.data = ['#', d1, d2, d3, d4, d5, d6] ∧
    (hexDigitVal d1).isSome ∧ (hexDigitVal d2).isSome ∧
    (hexDigitVal d3).isSome ∧ (hexDigitVal d4).isSome ∧
    (hexDigitVal d5).isSome ∧ (hexDigitVal d6).isSome

/-- The lowercase re-rendering of a hex color, as `getPaint` produces
it. -/
def normalizeHexColor (c : String) : String :=
  "#" ++ toHex2 (((parseHexByte (charAt c 1) (charAt c 2)).getD 0) % 256)
      ++ toHex2 (((parseHexByte (charAt c 3) (charAt c 4)).getD 0) % 256)
      ++ toHex2 (((parseHexByte (charAt c 5) (charAt c 6)).getD 0) % 256)

end Paintworld

namespace Paintworld

/-! ## Theorems -/

/-! ### Association-list map lemmas -/

theorem mapFind?_mapSet_self {α : Type} (m : List ((Int × Int) × α)) (k : Int × Int) (v : α) :
    mapFind? k (mapSet m k v) = some v := by
  simp [mapSet, mapFind?]

theorem mapFind?_filter_ne {α : Type} (k : Int × Int) (m : List ((Int × Int) × α)) :
    mapFind? k (m.filter (fun p => p.1 ≠ k)) = none := by
  induction m with
  | nil => simp [mapFind?]
  | cons hd tl ih =>
    by_cases h : hd.1 = k
    · simpa [List.filter, h] using ih
    · simpa [List.filter, h, mapFind?] using ih

theorem mapFind?_mapDelete_self {α : Type} (m : List ((Int × Int) × α)) (k : Int × Int) :
    mapFind? k (mapDelete m k) = none := by
  simpa [mapDelete] using mapFind?_filter_ne k m

theorem mapFind?_filter_of_ne {α : Type} {k k' : Int × Int} (h : k' ≠ k)
    (m : List ((Int × Int) × α)) :
    mapFind? k' (m.filter (fun p => p.1 ≠ k)) = mapFind? k' m := by
  induction m with
  | nil => simp
  | cons hd tl ih =>
    obtain ⟨k1, v1⟩ := hd
    by_cases hk : k1 = k
    · have hne : k1 ≠ k' := by rw [hk]; exact fun hh => h hh.symm
      rw [List.filter_cons, if_neg (by simp [hk]), ih]
      simp [mapFind?, hne]
    · rw [List.filter_cons, if_pos (by simp [hk])]
      by_cases hk' : k1 = k'
      · simp [mapFind?, hk']
      · simp only [mapFind?, if_neg hk']
        simpa using ih

theorem mapFind?_mapSet_ne {α : Type} (m : List ((Int × Int) × α)) (k k' : Int × Int) (v : α)
    (h : k' ≠ k) : mapFind? k' (mapSet m k v) = mapFind? k' m := by
  have hne : k ≠ k' := fun hh => h hh.symm
  simp only [mapSet, mapFind?, if_neg hne]
  exact mapFind?_filter_of_ne h m

theorem mapFind?_mapDelete_ne {α : Type} (m : List ((Int × Int) × α)) (k k' : Int × Int)
    (h : k' ≠ k) : mapFind? k' (mapDelete m k) = mapFind? k' m :=
  mapFind?_filter_of_ne h m

/-! ### C1 -/

theorem mapFind?_mem {α : Type} {k : Int × Int} {v : α} :
    ∀ {m : List ((Int × Int) × α)}, mapFind? k m = some v → (k, v) ∈ m := by
  intro m
  induction m with
  | nil => intro h; simp [mapFind?] at h
  | cons hd tl ih =>
    obtain ⟨k1, v1⟩ := hd
    intro h
    by_cases hk : k1 = k
    · simp only [mapFind?, if_pos hk] at h
      obtain rfl := Option.some_injective _ h
      simp [hk]
    · simp only [mapFind?, if_neg hk] at h
      exact List.mem_cons_of_mem _ (ih h)

/-- C1 counterexample: two remote updates to cell `(0, 0)` from the
same remote writer with versions `1 < 2`; applying the newer one first
and the older one second leaves the cache holding the older value, not
the `v2` value the claim requires for both orders (the handler performs
no version comparison). -/
theorem C1_counterexample :
    (mapFind? (0, 0) (handleRealtimeUpdate
        (handleRealtimeUpdate ⟨some "me", "Me", "", [], [], [], 0⟩
          (.paint ⟨0, 0, some "#222222", "alice", none, none, 2⟩))
        (.paint ⟨0, 0, some "#111111", "alice", none, none, 1⟩)).paints).map
      Paint.color = some (some "#111111") ∧
    ("#111111" : String) ≠ "#222222" := by
  constructor
  · rfl
  · decide

/-- C1 amended: the cache applies every non-self remote update
unconditionally — there is no version comparison — so conflict
resolution is last-arrival-wins: applying the `v1` update and then the
`v2` update leaves the `v2` value, while applying `v2` and then `v1`
leaves the `v1` value. -/
theorem C1_last_arrival_wins (st : CanvasState) (x y t1 t2 : Int)
    (c1 c2 owner : String) (n1 n2 a1 a2 : Option String)
    (h : st.userId ≠ some owner) :
    (mapFind? (x, y) (handleRealtimeUpdate
        (handleRealtimeUpdate st (.paint ⟨x, y, some c1, owner, n1, a1, t1⟩))
        (.paint ⟨x, y, some c2, owner, n2, a2, t2⟩)).paints).map Paint.color
      = some (some c2) ∧
    (mapFind? (x, y) (handleRealtimeUpdate
        (handleRealtimeUpdate st (.paint ⟨x, y, some c2, owner, n2, a2, t2⟩))
        (.paint ⟨x, y, some c1, owner, n1, a1, t1⟩)).paints).map Paint.color
      = some (some c1) := by
  constructor <;>
    simp [handleRealtimeUpdate, h, mapFind?_mapSet_self]

/-- C1 witness. -/
theorem C1_last_arrival_wins_witness :
    (some "me" : Option String) ≠ some "alice" ∧
    ((mapFind? (0, 0) (handleRealtimeUpdate
        (handleRealtimeUpdate ⟨some "me", "Me", "", [], [], [], 0⟩
          (.paint ⟨0, 0, some "#111111", "alice", none, none, 1⟩))
        (.paint ⟨0, 0, some "#222222", "alice", none, none, 2⟩)).paints).map
        Paint.color = some (some "#222222") ∧
     (mapFind? (0, 0) (handleRealtimeUpdate
        (handleRealtimeUpdate ⟨some "me", "Me", "", [], [], [], 0⟩
          (.paint ⟨0, 0, some "#222222", "alice", none, none, 2⟩))
        (.paint ⟨0, 0, some "#111111", "alice", none, none, 1⟩)).paints).map
        Paint.color = some (some "#111111")) :=
  ⟨by decide,
   C1_last_arrival_wins ⟨some "me", "Me", "", [], [], [], 0⟩ 0 0 1 2
     "#111111" "#222222" "alice" none none none none (by decide)⟩

/-! ### C2 -/

/-- C2: Self-echo suppression: in a well-formed session (every pending
optimistic write carries the session's own user id, which `handlePaint`
guarantees), a remote `paint` message whose `(owner, timestamp)`
matches a still-pending local write for the same cell leaves the
component state — in particular the rendered cell colors, the render
counter, and hence any charge accounting (which the handler never
touches) — entirely unchanged: the echo is discarded. -/
theorem C2_self_echo_suppression (st : CanvasState) (d : PaintUpdate) (p : PendingPaint)
    (hwf : PendingOwned st)
    (hpend : mapFind? (d.x, d.y) st.pendingPaints = some p)
    (howner : p.owner = d.owner) (_hts : p.timestamp = d.timestamp) :
    handleRealtimeUpdate st (.paint d) = st := by
  have hmem : ((d.x, d.y), p) ∈ st.pendingPaints := mapFind?_mem hpend
  have huid : some p.owner = st.userId := hwf _ hmem
  have hcond : st.userId = some d.owner := by rw [← huid, howner]
  simp [handleRealtimeUpdate, hcond]

/-- C2 witness: a local paint at `(1, 2)` followed by the echoing
remote event with the same `(owner, timestamp)`. -/
theorem C2_self_echo_suppression_witness :
    (PendingOwned ⟨some "me", "Me", "", [],
        [((1, 2), ⟨1, 2, some "#ff0000", "me", 7⟩)], [], 1⟩ ∧
     mapFind? (1, 2)
        (⟨some "me", "Me", "", [],
          [((1, 2), ⟨1, 2, some "#ff0000", "me", 7⟩)], [], 1⟩ :
            CanvasState).pendingPaints = some ⟨1, 2, some "#ff0000", "me", 7⟩) ∧
    handleRealtimeUpdate
      ⟨some "me", "Me", "", [], [((1, 2), ⟨1, 2, some "#ff0000", "me", 7⟩)], [], 1⟩
      (.paint ⟨1, 2, some "#ff0000", "me", none, none, 7⟩) =
      ⟨some "me", "Me", "", [], [((1, 2), ⟨1, 2, some "#ff0000", "me", 7⟩)], [], 1⟩ :=
  ⟨⟨by intro kv hkv; simp [PendingOwned] at hkv ⊢; simp [hkv], by decide⟩,
   C2_self_echo_suppression _ ⟨1, 2, some "#ff0000", "me", none, none, 7⟩
     ⟨1, 2, some "#ff0000", "me", 7⟩
     (by intro kv hkv; simp at hkv; simp [hkv]) (by decide) rfl rfl⟩

/-- `handlePaint` establishes the C2 well-formedness invariant: it only
ever inserts pending writes owned by the session user. -/
theorem handlePaint_pendingOwned (st : CanvasState) (now x y : Int) (color : String)
    (h : PendingOwned st) : PendingOwned (handlePaint st now x y color) := by
  cases huid : st.userId with
  | none => simpa [handlePaint, huid] using h
  | some uid =>
    intro kv hkv
    simp only [handlePaint, huid, mapSet, List.mem_cons] at hkv
    rcases hkv with rfl | hkv
    · simp [handlePaint, huid]
    · have hv := h kv (List.mem_of_mem_filter hkv)
      simpa [handlePaint, huid] using hv

/-! ### C3 -/

/-- C3 counterexample: a cache holding a remote paint at `(0, 0)` with
no pending local write receives a remote `delete` event for that cell;
afterwards the cache has **no entry at all** for the cell
(`mapFind? = none`), refuting the claim that the erase is stored as an
erased-marker value rather than the entry being removed. -/
theorem C3_counterexample :
    mapFind? (0, 0) (handleRealtimeUpdate
        ⟨some "me", "Me", "",
          [((0, 0), ⟨0, 0, some "#ff0000", "alice", none, none⟩)], [], [], 0⟩
        (.delete ⟨0, 0, "alice", 5⟩)).paints = none := by
  decide

/-- C3 amended: erase is a map deletion, not a tombstone value:
a remote `paint` update carrying the erased value (`color = null`)
and a remote `delete` event both remove the cell's entry from the
Local Cell Cache, and a local erase (`paintPixelInstant` with
`color = null`) removes the entry as well; a remote `delete` event for
a cell with no pending local write removes the entry and triggers
exactly one render callback. -/
theorem C3_erase_removes_entry (st : CanvasState) (d : PaintDelete) (u : PaintUpdate)
    (s2 : JsxState) (now : Int) (x y : Int)
    (hd : st.userId ≠ some d.owner)
    (_hnopending : mapFind? (d.x, d.y) st.pendingPaints = none)
    (hu : st.userId ≠ some u.owner) (hucolor : u.color = none) :
    mapFind? (d.x, d.y) (handleRealtimeUpdate st (.delete d)).paints = none ∧
    (handleRealtimeUpdate st (.delete d)).renders = st.renders + 1 ∧
    mapFind? (u.x, u.y) (handleRealtimeUpdate st (.paint u)).paints = none ∧
    mapFind? (x, y) (paintPixelInstant s2 now x y none).paintedCells = none := by
  refine ⟨?_, ?_, ?_, ?_⟩
  · simp [handleRealtimeUpdate, hd, mapFind?_mapDelete_self]
  · simp [handleRealtimeUpdate, hd]
  · simp [handleRealtimeUpdate, hu, hucolor, mapFind?_mapDelete_self]
  · simp [paintPixelInstant, mapFind?_mapDelete_self]

/-- C3 witness. -/
theorem C3_erase_removes_entry_witness :
    ((some "me" : Option String) ≠ some "alice" ∧
     mapFind? (0, 0)
        (⟨some "me", "Me", "",
          [((0, 0), ⟨0, 0, some "#ff0000", "alice", none, none⟩)], [], [], 0⟩ :
            CanvasState).pendingPaints = none) ∧
    (mapFind? (0, 0) (handleRealtimeUpdate
        ⟨some "me", "Me", "",
          [((0, 0), ⟨0, 0, some "#ff0000", "alice", none, none⟩)], [], [], 0⟩
        (.delete ⟨0, 0, "alice", 5⟩)).paints = none ∧
     (handleRealtimeUpdate
        ⟨some "me", "Me", "",
          [((0, 0), ⟨0, 0, some "#ff0000", "alice", none, none⟩)], [], [], 0⟩
        (.delete ⟨0, 0, "alice", 5⟩)).renders = 0 + 1 ∧
     mapFind? (3, 4) (handleRealtimeUpdate
        ⟨some "me", "Me", "",
          [((0, 0), ⟨0, 0, some "#ff0000", "alice", none, none⟩)], [], [], 0⟩
        (.paint ⟨3, 4, none, "alice", none, none, 6⟩)).paints = none ∧
     mapFind? (9, 9) (paintPixelInstant ⟨none, [], [], 0, 10, 0⟩ 11 9 9
        none).paintedCells = none) :=
  ⟨⟨by decide, by decide⟩,
   C3_erase_removes_entry
     ⟨some "me", "Me", "",
       [((0, 0), ⟨0, 0, some "#ff0000", "alice", none, none⟩)], [], [], 0⟩
     ⟨0, 0, "alice", 5⟩ ⟨3, 4, none, "alice", none, none, 6⟩
     ⟨none, [], [], 0, 10, 0⟩ 11 9 9 (by decide) (by decide) (by decide) rfl⟩

/-! ### C4 -/

/-- C4: Grid addressing is total and saturating: for every input
coordinate (in particular every coordinate outside the valid grid
range), `gridCoordsFromMercator` divides by the cell edge length, floors,
and clamps each axis independently into `[0, 2000000)`; the result is
always an in-range cell and the function is total (never an error). -/
theorem C4_toCell_total_saturating (x y : ℚ) :
    0 ≤ (gridCoordsFromMercator x y).1 ∧ (gridCoordsFromMercator x y).1 < 2000000 ∧
    0 ≤ (gridCoordsFromMercator x y).2 ∧ (gridCoordsFromMercator x y).2 < 2000000 := by
  refine ⟨?_, ?_, ?_, ?_⟩ <;>
    simp only [gridCoordsFromMercator, gridAxis] <;>
    [exact le_max_left 0 _;
     exact lt_of_le_of_lt (max_le (by norm_num) (min_le_left _ _)) (by norm_num);
     exact le_max_left 0 _;
     exact lt_of_le_of_lt (max_le (by norm_num) (min_le_left _ _)) (by norm_num)]

/-! ### C5 and C6: the rasterizer

The loop state is parametrized by the remaining distances
`rx = sx * (x1 - x)` and `ry = sy * (y1 - y)`; the loop invariant is
`err = D + dx - dy` for `D = rx * dy - ry * dx` together with the bound
`-M ≤ 2 * D ≤ M` where `M` is the major-axis length.  Under it the
major axis steps every iteration and both axes reach zero together. -/

theorem mem_of_head?_eq {α : Type} {l : List α} {c : α} (h : l.head? = some c) :
    c ∈ l := by
  cases l with
  | nil => simp at h
  | cons a t =>
    simp only [List.head?_cons, Option.some.injEq] at h
    simp [h]

theorem mem_of_getLast?_eq {α : Type} :
    ∀ {l : List α} {c : α}, l.getLast? = some c → c ∈ l
  | [], _, h => by simp at h
  | [a], c, h => by
    simp only [List.getLast?_singleton, Option.some.injEq] at h
    simp [h]
  | a :: b :: t, c, h => by
    rw [List.getLast?_cons_cons] at h
    exact List.mem_cons_of_mem _ (mem_of_getLast?_eq h)

/-- Run of the Bresenham loop when `x` is the major axis
(`0 < dx`, `dy ≤ dx`): the produced segment has length `rx + 1`, starts
at the current point, and ends at the endpoint. -/
theorem bresLoop_major_x (x1 y1 dx dy sx sy : Int) (hdx : 0 < dx) (hdy : 0 ≤ dy)
    (hdydx : dy ≤ dx) (hsx : sx = 1 ∨ sx = -1) (_hsy : sy = 1 ∨ sy = -1) :
    ∀ (fuel : Nat) (rx ry err : Int),
      0 ≤ rx → 0 ≤ ry →
      err = rx * dy - ry * dx + dx - dy →
      -dx ≤ 2 * (rx * dy - ry * dx) →
      2 * (rx * dy - ry * dx) ≤ dx →
      rx.toNat < fuel →
      (bresLoop x1 y1 dx dy sx sy fuel (x1 - sx * rx) (y1 - sy * ry) err).length
          = rx.toNat + 1 ∧
      (bresLoop x1 y1 dx dy sx sy fuel (x1 - sx * rx) (y1 - sy * ry) err).head?
          = some ⟨x1 - sx * rx, y1 - sy * ry⟩ ∧
      (bresLoop x1 y1 dx dy sx sy fuel (x1 - sx * rx) (y1 - sy * ry) err).getLast?
          = some ⟨x1, y1⟩ := by
  intro fuel
  induction fuel with
  | zero => intro rx ry err _ _ _ _ _ hfuel; exact absurd hfuel (Nat.not_lt_zero _)
  | succ n ih =>
    intro rx ry err hrx hry herr hlo hhi hfuel
    by_cases hrx0 : rx = 0
    · -- the endpoint has been reached
      subst hrx0
      have hry0 : ry = 0 := by
        by_contra hne
        have h1 : 1 ≤ ry := by omega
        have h2 := mul_le_mul_of_nonneg_right h1 hdx.le
        nlinarith
      subst hry0
      simp only [mul_zero, sub_zero]
      rw [bresLoop, if_pos ⟨rfl, rfl⟩]
      exact ⟨by simp, by simp, by simp⟩
    · -- still travelling: the x axis steps this iteration
      have hrx1 : 1 ≤ rx := by omega
      have hxne : x1 - sx * rx ≠ x1 := by
        intro hcon
        have hz : sx * rx = 0 := by omega
        rcases hsx with h | h <;> rw [h] at hz <;> omega
      have hcond : ¬(x1 - sx * rx = x1 ∧ y1 - sy * ry = y1) := fun hc => hxne hc.1
      have hxfire : 2 * err > -dy := by
        rcases lt_or_eq_of_le hdydx with hlt | heq
        · linarith
        · rw [← heq] at hlo hhi hdx
          have hrxry : rx = ry := by
            by_contra hne
            rcases (by omega : rx - ry ≤ -1 ∨ 1 ≤ rx - ry) with h1 | h1 <;>
              · have hm := mul_le_mul_of_nonneg_right h1 hdx.le
                nlinarith
          have hD : rx * dy - ry * dx = 0 := by rw [← heq, hrxry]; ring
          rw [herr, hD]
          linarith
      have hx' : x1 - sx * rx + sx = x1 - sx * (rx - 1) := by ring
      by_cases hyfire : 2 * err < dx
      · -- both axes step
        have hry1 : 1 ≤ ry := by
          by_contra hc
          have hry0 : ry = 0 := by omega
          subst hry0
          rw [herr] at hyfire
          rcases (by omega : dy = 0 ∨ 1 ≤ dy) with h0 | h1
          · rw [h0] at hyfire; nlinarith
          · have hm := mul_le_mul_of_nonneg_right hrx1 (by omega : (0:ℤ) ≤ dy)
            nlinarith
        have hy' : y1 - sy * ry + sy = y1 - sy * (ry - 1) := by ring
        have hred : bresLoop x1 y1 dx dy sx sy (n + 1) (x1 - sx * rx) (y1 - sy * ry) err
            = ⟨x1 - sx * rx, y1 - sy * ry⟩ ::
              bresLoop x1 y1 dx dy sx sy n (x1 - sx * (rx - 1)) (y1 - sy * (ry - 1))
                (err - dy + dx) := by
          rw [bresLoop, if_neg hcond]
          simp only [if_pos hxfire, if_pos hyfire]
          rw [hx', hy']
        obtain ⟨ihlen, ihhead, ihlast⟩ :=
          ih (rx - 1) (ry - 1) (err - dy + dx) (by omega) (by omega)
            (by rw [herr]; ring) (by nlinarith) (by nlinarith) (by omega)
        refine ⟨?_, ?_, ?_⟩
        · rw [hred, List.length_cons, ihlen]; omega
        · rw [hred]; rfl
        · rw [hred]
          cases htl : bresLoop x1 y1 dx dy sx sy n (x1 - sx * (rx - 1))
              (y1 - sy * (ry - 1)) (err - dy + dx) with
          | nil => rw [htl] at ihlen; simp at ihlen
          | cons c rest =>
            rw [htl] at ihlast
            rw [List.getLast?_cons_cons]
            exact ihlast
      · -- only the x axis steps
        have hred : bresLoop x1 y1 dx dy sx sy (n + 1) (x1 - sx * rx) (y1 - sy * ry) err
            = ⟨x1 - sx * rx, y1 - sy * ry⟩ ::
              bresLoop x1 y1 dx dy sx sy n (x1 - sx * (rx - 1)) (y1 - sy * ry)
                (err - dy) := by
          rw [bresLoop, if_neg hcond]
          simp only [if_pos hxfire, if_neg hyfire]
          rw [hx']
        obtain ⟨ihlen, ihhead, ihlast⟩ :=
          ih (rx - 1) ry (err - dy) (by omega) hry
            (by rw [herr]; ring) (by nlinarith) (by nlinarith) (by omega)
        refine ⟨?_, ?_, ?_⟩
        · rw [hred, List.length_cons, ihlen]; omega
        · rw [hred]; rfl
        · rw [hred]
          cases htl : bresLoop x1 y1 dx dy sx sy n (x1 - sx * (rx - 1))
              (y1 - sy * ry) (err - dy) with
          | nil => rw [htl] at ihlen; simp at ihlen
          | cons c rest =>
            rw [htl] at ihlast
            rw [List.getLast?_cons_cons]
            exact ihlast

/-- Run of the Bresenham loop when `y` is the major axis
(`0 ≤ dx < dy`). -/
theorem bresLoop_major_y (x1 y1 dx dy sx sy : Int) (hdy : 0 < dy) (hdx : 0 ≤ dx)
    (hdxdy : dx < dy) (_hsx : sx = 1 ∨ sx = -1) (hsy : sy = 1 ∨ sy = -1) :
    ∀ (fuel : Nat) (rx ry err : Int),
      0 ≤ rx → 0 ≤ ry →
      err = rx * dy - ry * dx + dx - dy →
      -dy ≤ 2 * (rx * dy - ry * dx) →
      2 * (rx * dy - ry * dx) ≤ dy →
      ry.toNat < fuel →
      (bresLoop x1 y1 dx dy sx sy fuel (x1 - sx * rx) (y1 - sy * ry) err).length
          = ry.toNat + 1 ∧
      (bresLoop x1 y1 dx dy sx sy fuel (x1 - sx * rx) (y1 - sy * ry) err).head?
          = some ⟨x1 - sx * rx, y1 - sy * ry⟩ ∧
      (bresLoop x1 y1 dx dy sx sy fuel (x1 - sx * rx) (y1 - sy * ry) err).getLast?
          = some ⟨x1, y1⟩ := by
  intro fuel
  induction fuel with
  | zero => intro rx ry err _ _ _ _ _ hfuel; exact absurd hfuel (Nat.not_lt_zero _)
  | succ n ih =>
    intro rx ry err hrx hry herr hlo hhi hfuel
    by_cases hry0 : ry = 0
    · subst hry0
      have hrx0 : rx = 0 := by
        by_contra hne
        have h1 : 1 ≤ rx := by omega
        have h2 := mul_le_mul_of_nonneg_right h1 hdy.le
        nlinarith
      subst hrx0
      simp only [mul_zero, sub_zero]
      rw [bresLoop, if_pos ⟨rfl, rfl⟩]
      exact ⟨by simp, by simp, by simp⟩
    · have hry1 : 1 ≤ ry := by omega
      have hyne : y1 - sy * ry ≠ y1 := by
        intro hcon
        have hz : sy * ry = 0 := by omega
        rcases hsy with h | h <;> rw [h] at hz <;> omega
      have hcond : ¬(x1 - sx * rx = x1 ∧ y1 - sy * ry = y1) := fun hc => hyne hc.2
      have hyfire : 2 * err < dx := by
        rw [herr]; linarith
      have hy' : y1 - sy * ry + sy = y1 - sy * (ry - 1) := by ring
      by_cases hxfire : 2 * err > -dy
      · -- both axes step
        have hrx1 : 1 ≤ rx := by
          by_contra hc
          have hrx0 : rx = 0 := by omega
          subst hrx0
          rw [herr] at hxfire
          have hm := mul_le_mul_of_nonneg_right hry1 hdx
          nlinarith
        have hx' : x1 - sx * rx + sx = x1 - sx * (rx - 1) := by ring
        have hred : bresLoop x1 y1 dx dy sx sy (n + 1) (x1 - sx * rx) (y1 - sy * ry) err
            = ⟨x1 - sx * rx, y1 - sy * ry⟩ ::
              bresLoop x1 y1 dx dy sx sy n (x1 - sx * (rx - 1)) (y1 - sy * (ry - 1))
                (err - dy + dx) := by
          rw [bresLoop, if_neg hcond]
          simp only [if_pos hxfire, if_pos hyfire]
          rw [hx', hy']
        obtain ⟨ihlen, ihhead, ihlast⟩ :=
          ih (rx - 1) (ry - 1) (err - dy + dx) (by omega) (by omega)
            (by rw [herr]; ring) (by nlinarith) (by nlinarith) (by omega)
        refine ⟨?_, ?_, ?_⟩
        · rw [hred, List.length_cons, ihlen]; omega
        · rw [hred]; rfl
        · rw [hred]
          cases htl : bresLoop x1 y1 dx dy sx sy n (x1 - sx * (rx - 1))
              (y1 - sy * (ry - 1)) (err - dy + dx) with
          | nil => rw [htl] at ihlen; simp at ihlen
          | cons c rest =>
            rw [htl] at ihlast
            rw [List.getLast?_cons_cons]
            exact ihlast
      · -- only the y axis steps
        have hred : bresLoop x1 y1 dx dy sx sy (n + 1) (x1 - sx * rx) (y1 - sy * ry) err
            = ⟨x1 - sx * rx, y1 - sy * ry⟩ ::
              bresLoop x1 y1 dx dy sx sy n (x1 - sx * rx) (y1 - sy * (ry - 1))
                (err + dx) := by
          rw [bresLoop, if_neg hcond]
          simp only [if_neg hxfire, if_pos hyfire]
          rw [hy']
        obtain ⟨ihlen, ihhead, ihlast⟩ :=
          ih rx (ry - 1) (err + dx) hrx (by omega)
            (by rw [herr]; ring) (by nlinarith) (by nlinarith) (by omega)
        refine ⟨?_, ?_, ?_⟩
        · rw [hred, List.length_cons, ihlen]; omega
        · rw [hred]; rfl
        · rw [hred]
          cases htl : bresLoop x1 y1 dx dy sx sy n (x1 - sx * rx)
              (y1 - sy * (ry - 1)) (err + dx) with
          | nil => rw [htl] at ihlen; simp at ihlen
          | cons c rest =>
            rw [htl] at ihlast
            rw [List.getLast?_cons_cons]
            exact ihlast

/-- Full specification of `getLineCells`: length `max(dx, dy) + 1`,
first element the start point, last element the endpoint. -/
theorem getLineCells_spec (x0 y0 x1 y1 : Int) :
    (getLineCells x0 y0 x1 y1).length = (max |x1 - x0| |y1 - y0|).toNat + 1 ∧
    (getLineCells x0 y0 x1 y1).head? = some ⟨x0, y0⟩ ∧
    (getLineCells x0 y0 x1 y1).getLast? = some ⟨x1, y1⟩ := by
  simp only [getLineCells]
  have hdx0 : (0:ℤ) ≤ |x1 - x0| := abs_nonneg _
  have hdy0 : (0:ℤ) ≤ |y1 - y0| := abs_nonneg _
  have hsx : (if x0 < x1 then (1:ℤ) else -1) = 1 ∨
      (if x0 < x1 then (1:ℤ) else -1) = -1 := by split_ifs <;> simp
  have hsy : (if y0 < y1 then (1:ℤ) else -1) = 1 ∨
      (if y0 < y1 then (1:ℤ) else -1) = -1 := by split_ifs <;> simp
  have hx0 : x1 - (if x0 < x1 then (1:ℤ) else -1) * |x1 - x0| = x0 := by
    rcases abs_cases (x1 - x0) with ⟨h1, h2⟩ | ⟨h1, h2⟩ <;> rw [h1] <;>
      split_ifs with h <;> ring_nf <;> omega
  have hy0 : y1 - (if y0 < y1 then (1:ℤ) else -1) * |y1 - y0| = y0 := by
    rcases abs_cases (y1 - y0) with ⟨h1, h2⟩ | ⟨h1, h2⟩ <;> rw [h1] <;>
      split_ifs with h <;> ring_nf <;> omega
  by_cases hdeg : |x1 - x0| = 0 ∧ |y1 - y0| = 0
  · obtain ⟨h1, h2⟩ := hdeg
    have hx : x1 = x0 := by have := abs_eq_zero.mp h1; omega
    have hy : y1 = y0 := by have := abs_eq_zero.mp h2; omega
    subst hx; subst hy
    rw [h1, h2]
    norm_num [bresLoop]
  · by_cases hcmp : |y1 - y0| ≤ |x1 - x0|
    · have hdxpos : (0:ℤ) < |x1 - x0| := by
        rcases lt_or_eq_of_le hdx0 with h | h
        · exact h
        · exact absurd ⟨h.symm, by omega⟩ hdeg
      obtain ⟨hl, hh, ht⟩ :=
        bresLoop_major_x x1 y1 |x1 - x0| |y1 - y0|
          (if x0 < x1 then 1 else -1) (if y0 < y1 then 1 else -1)
          hdxpos hdy0 hcmp hsx hsy
          (|x1 - x0| + |y1 - y0| + 1).toNat |x1 - x0| |y1 - y0|
          (|x1 - x0| - |y1 - y0|) hdx0 hdy0 (by ring)
          (by have hD : |x1 - x0| * |y1 - y0| - |y1 - y0| * |x1 - x0| = 0 := by ring
              rw [hD]; linarith)
          (by have hD : |x1 - x0| * |y1 - y0| - |y1 - y0| * |x1 - x0| = 0 := by ring
              rw [hD]; linarith)
          (by omega)
      rw [hx0, hy0] at hl hh ht
      rw [max_eq_left hcmp]
      exact ⟨hl, hh, ht⟩
    · have hdypos : (0:ℤ) < |y1 - y0| := by omega
      obtain ⟨hl, hh, ht⟩ :=
        bresLoop_major_y x1 y1 |x1 - x0| |y1 - y0|
          (if x0 < x1 then 1 else -1) (if y0 < y1 then 1 else -1)
          hdypos hdx0 (by omega) hsx hsy
          (|x1 - x0| + |y1 - y0| + 1).toNat |x1 - x0| |y1 - y0|
          (|x1 - x0| - |y1 - y0|) hdx0 hdy0 (by ring)
          (by have hD : |x1 - x0| * |y1 - y0| - |y1 - y0| * |x1 - x0| = 0 := by ring
              rw [hD]; linarith)
          (by have hD : |x1 - x0| * |y1 - y0| - |y1 - y0| * |x1 - x0| = 0 := by ring
              rw [hD]; linarith)
          (by omega)
      rw [hx0, hy0] at hl hh ht
      rw [max_eq_right (by omega : |x1 - x0| ≤ |y1 - y0|)]
      exact ⟨hl, hh, ht⟩

/-- C5: For every pair of integer endpoints, `getLineCells` is a finite
sequence containing both endpoints whose length is
`max(|x1-x0|, |y1-y0|) + 1`; in particular the stroke from `(0,0)` to
`(3,1)` yields exactly `(0,0), (1,0), (2,1), (3,1)` in that order. -/
theorem C5_lineCells_endpoints_length (x0 y0 x1 y1 : Int) :
    (getLineCells x0 y0 x1 y1).length = (max |x1 - x0| |y1 - y0|).toNat + 1 ∧
    Cell.mk x0 y0 ∈ getLineCells x0 y0 x1 y1 ∧
    Cell.mk x1 y1 ∈ getLineCells x0 y0 x1 y1 ∧
    getLineCells 0 0 3 1 = [⟨0, 0⟩, ⟨1, 0⟩, ⟨2, 1⟩, ⟨3, 1⟩] := by
  obtain ⟨h1, h2, h3⟩ := getLineCells_spec x0 y0 x1 y1
  exact ⟨h1, mem_of_head?_eq h2, mem_of_getLast?_eq h3, by decide⟩

/-- C6 counterexample: for the endpoints `(0,0)` and `(4,2)`, swapping
the endpoints does **not** yield the reverse sequence: the rasterizer is
not symmetric under direction reversal. -/
theorem C6_counterexample :
    getLineCells 0 0 4 2 ≠ (getLineCells 4 2 0 0).reverse := by decide

/-- C6 amended: swapping the endpoints yields a sequence whose reverse
has the same length as `getLineCells from to` and runs from `from` to
`to` (same two endpoints in the same positions), but it is not in
general equal to that sequence — direction-reversal symmetry of the
exact cell sequence fails. -/
theorem C6_reverse_same_endpoints_length (x0 y0 x1 y1 : Int) :
    ((getLineCells x1 y1 x0 y0).reverse).length = (getLineCells x0 y0 x1 y1).length ∧
    ((getLineCells x1 y1 x0 y0).reverse).head? = some ⟨x0, y0⟩ ∧
    ((getLineCells x1 y1 x0 y0).reverse).getLast? = some ⟨x1, y1⟩ := by
  obtain ⟨hl, hh, ht⟩ := getLineCells_spec x1 y1 x0 y0
  obtain ⟨hl2, _, _⟩ := getLineCells_spec x0 y0 x1 y1
  refine ⟨?_, ?_, ?_⟩
  · rw [List.length_reverse, hl, hl2, abs_sub_comm x0 x1, abs_sub_comm y0 y1, max_comm]
  · rw [List.head?_reverse]
    exact ht
  · rw [List.getLast?_reverse]
    exact hh

/-! ### C7: the charge ledger -/

theorem applyLedgerOp_inv (l : ChargeLedger) (h0 : 0 ≤ l.charges)
    (h1 : l.charges ≤ l.capacity) (op : LedgerOp) :
    0 ≤ (applyLedgerOp l op).charges ∧
    (applyLedgerOp l op).charges ≤ (applyLedgerOp l op).capacity ∧
    (applyLedgerOp l op).capacity = l.capacity := by
  have hcap : 0 ≤ l.capacity := le_trans h0 h1
  cases op with
  | consume =>
    by_cases h : l.charges ≤ 0
    · have he : applyLedgerOp l .consume = l := by simp [applyLedgerOp, tryConsume, h]
      rw [he]; exact ⟨h0, h1, rfl⟩
    · have he : applyLedgerOp l .consume = { l with charges := max 0 (l.charges - 1) } := by
        simp [applyLedgerOp, tryConsume, h]
      rw [he]
      refine ⟨le_max_left 0 _, ?_, rfl⟩
      show max 0 (l.charges - 1) ≤ l.capacity
      exact max_le hcap (by omega)
  | refundOp =>
    by_cases h : l.charges < l.capacity
    · have he : applyLedgerOp l .refundOp =
          { l with charges := min l.capacity (l.charges + 1) } := by
        simp [applyLedgerOp, refund, h]
      rw [he]
      exact ⟨le_min hcap (by omega), min_le_left _ _, rfl⟩
    · have he : applyLedgerOp l .refundOp = l := by simp [applyLedgerOp, refund, h]
      rw [he]; exact ⟨h0, h1, rfl⟩
  | tickOp now =>
    by_cases h : 0 < Int.fdiv (now - l.lastRefillAt) l.regenSeconds
    · have he : applyLedgerOp l (.tickOp now) =
          { l with
            charges := min l.capacity
              (l.charges + Int.fdiv (now - l.lastRefillAt) l.regenSeconds),
            lastRefillAt := l.lastRefillAt +
              Int.fdiv (now - l.lastRefillAt) l.regenSeconds * l.regenSeconds } := by
        simp [applyLedgerOp, tick, h]
      rw [he]
      refine ⟨le_min hcap ?_, min_le_left _ _, rfl⟩
      have := h
      omega
    · have he : applyLedgerOp l (.tickOp now) = l := by simp [applyLedgerOp, tick, h]
      rw [he]; exact ⟨h0, h1, rfl⟩

theorem foldl_ledger_inv :
    ∀ (ops : List LedgerOp) (l : ChargeLedger), 0 ≤ l.charges → l.charges ≤ l.capacity →
      0 ≤ (ops.foldl applyLedgerOp l).charges ∧
      (ops.foldl applyLedgerOp l).charges ≤ (ops.foldl applyLedgerOp l).capacity
  | [], _, h0, h1 => ⟨h0, h1⟩
  | op :: ops, l, h0, h1 => by
    obtain ⟨g0, g1, _⟩ := applyLedgerOp_inv l h0 h1 op
    simpa [List.foldl_cons] using foldl_ledger_inv ops _ g0 g1

/-- C7: Charge ledger invariant: starting from a ledger with
`0 ≤ charges ≤ capacity`, every sequence of consume / refund / tick
operations keeps `charges` within `[0, capacity]`; `tryConsume` with
`charges = 0` returns `false` and changes nothing, and with positive
charges it decrements by exactly one and returns `true`. -/
theorem C7_charge_ledger (l : ChargeLedger) (h0 : 0 ≤ l.charges)
    (h1 : l.charges ≤ l.capacity) :
    (∀ ops : List LedgerOp,
        0 ≤ (ops.foldl applyLedgerOp l).charges ∧
        (ops.foldl applyLedgerOp l).charges ≤ (ops.foldl applyLedgerOp l).capacity) ∧
    (l.charges = 0 → tryConsume l = (false, l)) ∧
    (0 < l.charges → tryConsume l = (true, { l with charges := l.charges - 1 })) := by
  refine ⟨fun ops => foldl_ledger_inv ops l h0 h1, fun hz => ?_, fun hpos => ?_⟩
  · simp [tryConsume, hz]
  · have hle : ¬l.charges ≤ 0 := by omega
    have hmax : max 0 (l.charges - 1) = l.charges - 1 := max_eq_right (by omega)
    simp [tryConsume, hle, hmax]

/-- C7 witness: a ledger with 3 charges out of capacity 10. -/
theorem C7_charge_ledger_witness :
    ((0:ℤ) ≤ 3 ∧ (3:ℤ) ≤ 10) ∧
    ((∀ ops : List LedgerOp,
        0 ≤ (ops.foldl applyLedgerOp ⟨10, 3, 30, 0⟩).charges ∧
        (ops.foldl applyLedgerOp ⟨10, 3, 30, 0⟩).charges ≤
          (ops.foldl applyLedgerOp ⟨10, 3, 30, 0⟩).capacity) ∧
     ((⟨10, 3, 30, 0⟩ : ChargeLedger).charges = 0 →
        tryConsume ⟨10, 3, 30, 0⟩ = (false, ⟨10, 3, 30, 0⟩)) ∧
     (0 < (⟨10, 3, 30, 0⟩ : ChargeLedger).charges →
        tryConsume ⟨10, 3, 30, 0⟩ =
          (true, { (⟨10, 3, 30, 0⟩ : ChargeLedger) with charges := 3 - 1 }))) :=
  ⟨⟨by norm_num, by norm_num⟩,
   C7_charge_ledger ⟨10, 3, 30, 0⟩ (by norm_num) (by norm_num)⟩

/-! ### C8: the write buffer collapses by key -/

theorem getLast?_cons_isSome {α : Type} (a : α) :
    ∀ (t : List α), ((a :: t).getLast?).isSome
  | [] => by simp
  | b :: t => by
    rw [List.getLast?_cons_cons]
    exact getLast?_cons_isSome b t

theorem mapSet_keys_nodup {α : Type} (m : List ((Int × Int) × α)) (k : Int × Int) (v : α)
    (h : (m.map Prod.fst).Nodup) : ((mapSet m k v).map Prod.fst).Nodup := by
  simp only [mapSet, List.map_cons, List.nodup_cons]
  refine ⟨?_, ?_⟩
  · intro hmem
    obtain ⟨p, hp, hpk⟩ := List.mem_map.mp hmem
    have hne := List.of_mem_filter hp
    simp only [decide_eq_true_eq] at hne
    exact hne hpk
  · exact h.sublist (List.Sublist.map _ (List.filter_sublist _))

theorem enqueueStep_paintBuffer (st : JsxState) (e : EnqueueOp) :
    (enqueueStep st e).paintBuffer =
      mapSet st.paintBuffer (e.gridX, e.gridY) (toBuffered e) := by
  cases hc : e.color <;>
    simp [enqueueStep, paintPixelInstant, toBuffered, hc]

theorem paintBuffer_nodup :
    ∀ (ops : List EnqueueOp) (st : JsxState),
      (st.paintBuffer.map Prod.fst).Nodup →
      (((ops.foldl enqueueStep st).paintBuffer).map Prod.fst).Nodup
  | [], _, h => h
  | e :: ops, st, h => by
    rw [List.foldl_cons]
    refine paintBuffer_nodup ops _ ?_
    rw [enqueueStep_paintBuffer]
    exact mapSet_keys_nodup _ _ _ h

theorem paintBuffer_foldl_find (k : Int × Int) :
    ∀ (ops : List EnqueueOp) (st : JsxState),
      mapFind? k (ops.foldl enqueueStep st).paintBuffer =
        (((ops.filter (fun e => decide ((e.gridX, e.gridY) = k))).getLast?).map
            toBuffered).or (mapFind? k st.paintBuffer)
  | [], st => by simp
  | e :: ops, st => by
    rw [List.foldl_cons, paintBuffer_foldl_find k ops (enqueueStep st e)]
    by_cases hk : (e.gridX, e.gridY) = k
    · rw [List.filter_cons, if_pos (by simpa using hk)]
      cases hframe : ops.filter (fun e => decide ((e.gridX, e.gridY) = k)) with
      | nil =>
        simp only [List.getLast?_singleton, Option.map_some, hframe]
        rw [enqueueStep_paintBuffer, hk, mapFind?_mapSet_self]
        simp [Option.or]
      | cons a t =>
        rw [List.getLast?_cons_cons]
        cases h2 : (a :: t).getLast? with
        | none =>
          have h3 := getLast?_cons_isSome a t
          rw [h2] at h3
          simp at h3
        | some w => simp [Option.or]
    · rw [List.filter_cons, if_neg (by simpa using hk)]
      rw [enqueueStep_paintBuffer,
        mapFind?_mapSet_ne _ _ _ _ (fun hc => hk hc.symm)]

theorem mapFind?_of_mem_nodup {α : Type} :
    ∀ {m : List ((Int × Int) × α)}, ((m.map Prod.fst).Nodup) →
      ∀ {kv : (Int × Int) × α}, kv ∈ m → mapFind? kv.1 m = some kv.2
  | [], _, _, hm => by cases hm
  | hd :: tl, h, kv, hm => by
    rw [List.map_cons, List.nodup_cons] at h
    rcases List.mem_cons.mp hm with rfl | hm'
    · simp [mapFind?]
    · have hne : hd.1 ≠ kv.1 := by
        intro hc
        exact h.1 (hc ▸ List.mem_map_of_mem Prod.fst hm')
      simp only [mapFind?, if_neg hne]
      exact mapFind?_of_mem_nodup h.2 hm'

/-- C8: Write-batcher key collapsing: starting from an empty buffer,
after any sequence of enqueued pending writes the buffer holds at most
one pending write per `(x, y)` key; the entry for a key is exactly the
latest enqueued write for that key (later enqueues replace earlier
ones); and consequently every value the flush reads out of the buffer
(`Array.from(paintBuffer.values())`, then partitioned by
`flushPartition`) is the final intent for its cell, however many times
the cell was written before the flush. -/
theorem C8_batcher_collapses (ops : List EnqueueOp) (st : JsxState)
    (hempty : st.paintBuffer = []) :
    ((((ops.foldl enqueueStep st).paintBuffer)).map Prod.fst).Nodup ∧
    (∀ k : Int × Int,
        mapFind? k (ops.foldl enqueueStep st).paintBuffer =
          ((ops.filter (fun e => decide ((e.gridX, e.gridY) = k))).getLast?).map
            toBuffered) ∧
    (∀ kv ∈ (ops.foldl enqueueStep st).paintBuffer,
        ((ops.filter (fun e => decide ((e.gridX, e.gridY) = kv.1))).getLast?).map
            toBuffered = some kv.2) := by
  have hnodup : ((((ops.foldl enqueueStep st).paintBuffer)).map Prod.fst).Nodup :=
    paintBuffer_nodup ops st (by simp [hempty])
  have hfind : ∀ k : Int × Int,
      mapFind? k (ops.foldl enqueueStep st).paintBuffer =
        ((ops.filter (fun e => decide ((e.gridX, e.gridY) = k))).getLast?).map
          toBuffered := by
    intro k
    rw [paintBuffer_foldl_find k ops st, hempty]
    simp only [mapFind?]
    cases hX : ((ops.filter
        (fun e => decide ((e.gridX, e.gridY) = k))).getLast?).map toBuffered with
    | none => rfl
    | some w => rfl
  refine ⟨hnodup, hfind, fun kv hkv => ?_⟩
  rw [← hfind kv.1]
  exact mapFind?_of_mem_nodup hnodup hkv

/-- C8 witness: three writes, two of them to the same cell. -/
theorem C8_batcher_collapses_witness :
    ((⟨none, [], [], 0, 10, 0⟩ : JsxState).paintBuffer = []) ∧
    (((([⟨1, 0, 0, some "#111111"⟩, ⟨2, 5, 5, none⟩, ⟨3, 0, 0, some "#222222"⟩] :
            List EnqueueOp).foldl enqueueStep
          ⟨none, [], [], 0, 10, 0⟩).paintBuffer.map Prod.fst).Nodup ∧
     (∀ k : Int × Int,
        mapFind? k (([⟨1, 0, 0, some "#111111"⟩, ⟨2, 5, 5, none⟩,
              ⟨3, 0, 0, some "#222222"⟩] : List EnqueueOp).foldl enqueueStep
            ⟨none, [], [], 0, 10, 0⟩).paintBuffer =
          ((([⟨1, 0, 0, some "#111111"⟩, ⟨2, 5, 5, none⟩,
              ⟨3, 0, 0, some "#222222"⟩] : List EnqueueOp).filter
              (fun e => decide ((e.gridX, e.gridY) = k))).getLast?).map toBuffered) ∧
     (∀ kv ∈ (([⟨1, 0, 0, some "#111111"⟩, ⟨2, 5, 5, none⟩,
              ⟨3, 0, 0, some "#222222"⟩] : List EnqueueOp).foldl enqueueStep
            ⟨none, [], [], 0, 10, 0⟩).paintBuffer,
        ((([⟨1, 0, 0, some "#111111"⟩, ⟨2, 5, 5, none⟩,
              ⟨3, 0, 0, some "#222222"⟩] : List EnqueueOp).filter
              (fun e => decide ((e.gridX, e.gridY) = kv.1))).getLast?).map
            toBuffered = some kv.2)) :=
  ⟨rfl,
   C8_batcher_collapses [⟨1, 0, 0, some "#111111"⟩, ⟨2, 5, 5, none⟩,
     ⟨3, 0, 0, some "#222222"⟩] ⟨none, [], [], 0, 10, 0⟩ rfl⟩

/-! ### C9: the erase half of the flush -/

theorem eraseOne_removed_owned (uid : String) (capacity : Int) (store : List Row)
    (charges : Int) (e : BufferedWrite) (hids : (store.map Row.id).Nodup) :
    (∀ r ∈ store, r ∉ (eraseOne uid capacity store charges e).1 → r.owner = uid) ∧
    (∀ r ∈ (eraseOne uid capacity store charges e).1, r ∈ store) ∧
    (((eraseOne uid capacity store charges e).1.map Row.id).Nodup) := by
  cases hfind : store.find?
      (fun r => decide (r.x = e.gridX ∧ r.y = e.gridY ∧ r.owner = uid)) with
  | none =>
    simp only [eraseOne, hfind]
    exact ⟨fun r hr hnr => absurd hr hnr, fun r hr => hr, hids⟩
  | some row =>
    have hrowmem : row ∈ store := List.mem_of_find?_eq_some hfind
    have hpred := List.find?_some hfind
    simp only [decide_eq_true_eq] at hpred
    obtain ⟨hx, hy, howner⟩ := hpred
    simp only [eraseOne, hfind]
    refine ⟨?_, fun r hr => List.mem_of_mem_filter hr, ?_⟩
    · intro r hr hnr
      have hid : r.id = row.id := by
        by_contra hne
        exact hnr (List.mem_filter.mpr ⟨hr, by simpa using hne⟩)
      have hrrow : r = row := List.inj_on_of_nodup_map hids hr hrowmem hid
      rw [hrrow]
      exact howner
    · exact hids.sublist (List.Sublist.map _ (List.filter_sublist _))

theorem eraseFlush_removed_owned (uid : String) (capacity : Int) :
    ∀ (erases : List BufferedWrite) (store : List Row) (charges : Int),
      (store.map Row.id).Nodup →
      ∀ r ∈ store, r ∉ (eraseFlush uid capacity store charges erases).1 →
        r.owner = uid
  | [], store, charges, _, r, hr, hnr => absurd hr hnr
  | e :: erases, store, charges, hids, r, hr, hnr => by
    obtain ⟨howned, hsub, hids'⟩ := eraseOne_removed_owned uid capacity store charges e hids
    have hstep : eraseFlush uid capacity store charges (e :: erases) =
        eraseFlush uid capacity (eraseOne uid capacity store charges e).1
          (eraseOne uid capacity store charges e).2 erases := rfl
    rw [hstep] at hnr
    by_cases hmid : r ∈ (eraseOne uid capacity store charges e).1
    · exact eraseFlush_removed_owned uid capacity erases _ _ hids' r hmid hnr
    · exact howned r hr hmid

/-- C9: The erase flush is ownership-scoped and refund-gated: over a
whole flush, every row removed from the store was owned by the
requesting user (the delete is issued for the row found by the
`(x, y, owner)`-scoped select); an erase of a cell the user does not
own changes neither the store nor the charges and surfaces no error
(the function is total and the discarded select error is never
consulted); and the `+1` refund, capped at capacity, is applied exactly
when the store confirmed an owned row existed, that row having
`owner = uid`. -/
theorem C9_erase_flush_scoped_refund (uid : String) (capacity : Int) (store : List Row)
    (charges : Int) (erases : List BufferedWrite) (e : BufferedWrite) (row : Row)
    (hids : (store.map Row.id).Nodup) :
    (∀ r ∈ store, r ∉ (eraseFlush uid capacity store charges erases).1 →
        r.owner = uid) ∧
    ((∀ r ∈ store, r.x = e.gridX → r.y = e.gridY → r.owner ≠ uid) →
        eraseOne uid capacity store charges e = (store, charges)) ∧
    (store.find? (fun r => decide (r.x = e.gridX ∧ r.y = e.gridY ∧ r.owner = uid)) =
          some row →
        row.owner = uid ∧
        (eraseOne uid capacity store charges e).2 =
          (if charges < capacity then min capacity (charges + 1) else charges)) ∧
    (store.find? (fun r => decide (r.x = e.gridX ∧ r.y = e.gridY ∧ r.owner = uid)) =
          none →
        eraseOne uid capacity store charges e = (store, charges)) := by
  refine ⟨eraseFlush_removed_owned uid capacity erases store charges hids,
    fun hnone => ?_, fun hfound => ?_, fun hnone => ?_⟩
  · cases hfind : store.find?
        (fun r => decide (r.x = e.gridX ∧ r.y = e.gridY ∧ r.owner = uid)) with
    | none => simp only [eraseOne]; rw [hfind]
    | some row' =>
      have hmem := List.mem_of_find?_eq_some hfind
      have hpred := List.find?_some hfind
      simp only [decide_eq_true_eq] at hpred
      exact absurd hpred.2.2 (hnone row' hmem hpred.1 hpred.2.1)
  · have hpred := List.find?_some hfound
    simp only [decide_eq_true_eq] at hpred
    exact ⟨hpred.2.2, by simp only [eraseOne]; rw [hfound]⟩
  · simp only [eraseOne]; rw [hnone]

/-- C9 witness: a two-row store; the erase targets the requester's own
row at `(1, 1)`. -/
theorem C9_erase_flush_scoped_refund_witness :
    (([⟨1, 1, 1, "#111111", "me"⟩, ⟨2, 1, 1, "#222222", "alice"⟩].map Row.id).Nodup →
      True) ∧
    (([(⟨1, 1, 1, "#111111", "me"⟩ : Row), ⟨2, 1, 1, "#222222", "alice"⟩].map
        Row.id).Nodup) ∧
    ((∀ r ∈ [(⟨1, 1, 1, "#111111", "me"⟩ : Row), ⟨2, 1, 1, "#222222", "alice"⟩],
        r ∉ (eraseFlush "me" 10 [⟨1, 1, 1, "#111111", "me"⟩,
            ⟨2, 1, 1, "#222222", "alice"⟩] 3 [⟨1, 1, none, 9, false⟩]).1 →
        r.owner = "me") ∧
     ((∀ r ∈ [(⟨1, 1, 1, "#111111", "me"⟩ : Row), ⟨2, 1, 1, "#222222", "alice"⟩],
          r.x = (⟨1, 1, none, 9, false⟩ : BufferedWrite).gridX →
          r.y = (⟨1, 1, none, 9, false⟩ : BufferedWrite).gridY → r.owner ≠ "me") →
        eraseOne "me" 10 [⟨1, 1, 1, "#111111", "me"⟩, ⟨2, 1, 1, "#222222", "alice"⟩] 3
            ⟨1, 1, none, 9, false⟩ =
          ([⟨1, 1, 1, "#111111", "me"⟩, ⟨2, 1, 1, "#222222", "alice"⟩], 3)) ∧
     (([(⟨1, 1, 1, "#111111", "me"⟩ : Row), ⟨2, 1, 1, "#222222", "alice"⟩].find?
            (fun r => decide (r.x = (⟨1, 1, none, 9, false⟩ : BufferedWrite).gridX ∧
              r.y = (⟨1, 1, none, 9, false⟩ : BufferedWrite).gridY ∧
              r.owner = "me")) = some ⟨1, 1, 1, "#111111", "me"⟩ →
        (⟨1, 1, 1, "#111111", "me"⟩ : Row).owner = "me" ∧
        (eraseOne "me" 10 [⟨1, 1, 1, "#111111", "me"⟩, ⟨2, 1, 1, "#222222", "alice"⟩] 3
            ⟨1, 1, none, 9, false⟩).2 =
          (if (3:ℤ) < 10 then min 10 (3 + 1) else 3)) ∧
      ([(⟨1, 1, 1, "#111111", "me"⟩ : Row), ⟨2, 1, 1, "#222222", "alice"⟩].find?
            (fun r => decide (r.x = (⟨1, 1, none, 9, false⟩ : BufferedWrite).gridX ∧
              r.y = (⟨1, 1, none, 9, false⟩ : BufferedWrite).gridY ∧
              r.owner = "me")) = none →
        eraseOne "me" 10 [⟨1, 1, 1, "#111111", "me"⟩, ⟨2, 1, 1, "#222222", "alice"⟩] 3
            ⟨1, 1, none, 9, false⟩ =
          ([⟨1, 1, 1, "#111111", "me"⟩, ⟨2, 1, 1, "#222222", "alice"⟩], 3)))) :=
  ⟨fun _ => trivial, by decide,
   (C9_erase_flush_scoped_refund "me" 10
      [⟨1, 1, 1, "#111111", "me"⟩, ⟨2, 1, 1, "#222222", "alice"⟩] 3
      [⟨1, 1, none, 9, false⟩] ⟨1, 1, none, 9, false⟩ ⟨1, 1, 1, "#111111", "me"⟩
      (by decide)).imp id (fun h => ⟨h.1, h.2.1, h.2.2⟩)⟩

/-! ### C10: the chunked paint grid -/

theorem hexDigitVal_le_15 {ch : Char} {v : Nat} (h : hexDigitVal ch = some v) :
    v ≤ 15 := by
  unfold hexDigitVal at h
  split_ifs at h <;> (injection h with h2; omega)

theorem char_eq_of_toNat_eq {a b : Char} (h : a.toNat = b.toNat) : a = b :=
  Char.eq_of_val_eq (UInt32.ext h)

theorem hexDigitVal_eq_zero {ch : Char} (h : hexDigitVal ch = some 0) : ch = '0' := by
  have h48 : ('0' : Char).toNat = 48 := rfl
  unfold hexDigitVal at h
  split_ifs at h <;> first
    | exact Option.noConfusion h
    | (injection h with h2
       exact char_eq_of_toNat_eq (by omega))

/-- Reading back the cell just written: the three bytes stored by
`setPaint` are the ones `getPaint` reads. -/
theorem getPaint_setPaint (g : PaintGrid) (x y : Nat) (c : String) :
    getPaint (setPaint g x y c) x y =
      (if ((parseHexByte (charAt c 1) (charAt c 2)).getD 0) % 256 = 0 ∧
          ((parseHexByte (charAt c 3) (charAt c 4)).getD 0) % 256 = 0 ∧
          ((parseHexByte (charAt c 5) (charAt c 6)).getD 0) % 256 = 0 then none
       else some ("#" ++
          toHex2 (((parseHexByte (charAt c 1) (charAt c 2)).getD 0) % 256) ++
          toHex2 (((parseHexByte (charAt c 3) (charAt c 4)).getD 0) % 256) ++
          toHex2 (((parseHexByte (charAt c 5) (charAt c 6)).getD 0) % 256))) := by
  have e1 : ((y % chunkSize) * chunkSize + x % chunkSize) * 3 + 1 ≠
      ((y % chunkSize) * chunkSize + x % chunkSize) * 3 := by omega
  have e2 : ((y % chunkSize) * chunkSize + x % chunkSize) * 3 + 2 ≠
      ((y % chunkSize) * chunkSize + x % chunkSize) * 3 := by omega
  have e3 : ((y % chunkSize) * chunkSize + x % chunkSize) * 3 + 2 ≠
      ((y % chunkSize) * chunkSize + x % chunkSize) * 3 + 1 := by omega
  simp [getPaint, setPaint, e1, e2, e3]

/-- C10 counterexample: `setPaint` with the uppercase color `#FF4500`
reads back as the lowercase `#ff4500`, which is a different string, so
`getPaint` after `setPaint` does not return the written color. -/
theorem C10_counterexample :
    getPaint (setPaint ⟨fun _ => none⟩ 5 7 "#FF4500") 5 7 = some "#ff4500" ∧
    ("#ff4500" : String) ≠ "#FF4500" := by
  constructor
  · decide
  · decide

/-- C10 amended: for every pair of non-negative coordinates and every
7-character hex color `c`, `getPaint` immediately after
`setPaint x y c` returns the lowercase re-rendering of `c`
(`normalizeHexColor c`, equal to `c` exactly when its hex digits are
already lowercase) when `c` is not `#000000`, and returns `null` when
`c = "#000000"` — pure black is indistinguishable from an unpainted
cell. -/
theorem C10_roundtrip_lowercase (g : PaintGrid) (x y : Nat) (c : String)
    (h : ValidHexColor c) :
    getPaint (setPaint g x y c) x y =
      if c = "#000000" then none else some (normalizeHexColor c) := by
  obtain ⟨d1, d2, d3, d4, d5, d6, hdata, h1, h2, h3, h4, h5, h6⟩ := h
  obtain ⟨v1, hv1⟩ := Option.isSome_iff_exists.mp h1
  obtain ⟨v2, hv2⟩ := Option.isSome_iff_exists.mp h2
  obtain ⟨v3, hv3⟩ := Option.isSome_iff_exists.mp h3
  obtain ⟨v4, hv4⟩ := Option.isSome_iff_exists.mp h4
  obtain ⟨v5, hv5⟩ := Option.isSome_iff_exists.mp h5
  obtain ⟨v6, hv6⟩ := Option.isSome_iff_exists.mp h6
  have hc1 : charAt c 1 = d1 := by simp [charAt, hdata]
  have hc2 : charAt c 2 = d2 := by simp [charAt, hdata]
  have hc3 : charAt c 3 = d3 := by simp [charAt, hdata]
  have hc4 : charAt c 4 = d4 := by simp [charAt, hdata]
  have hc5 : charAt c 5 = d5 := by simp [charAt, hdata]
  have hc6 : charAt c 6 = d6 := by simp [charAt, hdata]
  have hb1 : parseHexByte (charAt c 1) (charAt c 2) = some (16 * v1 + v2) := by
    rw [hc1, hc2]; simp [parseHexByte, hv1, hv2]
  have hb2 : parseHexByte (charAt c 3) (charAt c 4) = some (16 * v3 + v4) := by
    rw [hc3, hc4]; simp [parseHexByte, hv3, hv4]
  have hb3 : parseHexByte (charAt c 5) (charAt c 6) = some (16 * v5 + v6) := by
    rw [hc5, hc6]; simp [parseHexByte, hv5, hv6]
  have hm1 : (16 * v1 + v2) % 256 = 16 * v1 + v2 :=
    Nat.mod_eq_of_lt (by
      have := hexDigitVal_le_15 hv1
      have := hexDigitVal_le_15 hv2
      omega)
  have hm2 : (16 * v3 + v4) % 256 = 16 * v3 + v4 :=
    Nat.mod_eq_of_lt (by
      have := hexDigitVal_le_15 hv3
      have := hexDigitVal_le_15 hv4
      omega)
  have hm3 : (16 * v5 + v6) % 256 = 16 * v5 + v6 :=
    Nat.mod_eq_of_lt (by
      have := hexDigitVal_le_15 hv5
      have := hexDigitVal_le_15 hv6
      omega)
  rw [getPaint_setPaint, hb1, hb2, hb3]
  simp only [Option.getD_some, hm1, hm2, hm3]
  by_cases hc : c = "#000000"
  · subst hc
    have hlit : ("#000000" : String).data = ['#', '0', '0', '0', '0', '0', '0'] := rfl
    rw [hlit] at hdata
    simp only [List.cons.injEq] at hdata
    obtain ⟨-, hx1, hx2, hx3, hx4, hx5, hx6, -⟩ := hdata
    subst hx1; subst hx2; subst hx3; subst hx4; subst hx5; subst hx6
    have h00 : hexDigitVal '0' = some 0 := rfl
    rw [h00] at hv1 hv2 hv3 hv4 hv5 hv6
    injection hv1 with hv1e
    injection hv2 with hv2e
    injection hv3 with hv3e
    injection hv4 with hv4e
    injection hv5 with hv5e
    injection hv6 with hv6e
    subst hv1e; subst hv2e; subst hv3e; subst hv4e; subst hv5e; subst hv6e
    simp
  · rw [if_neg hc]
    have hcond : ¬(16 * v1 + v2 = 0 ∧ 16 * v3 + v4 = 0 ∧ 16 * v5 + v6 = 0) := by
      rintro ⟨ha, hb, hcc⟩
      have hd1 : d1 = '0' := hexDigitVal_eq_zero (by rw [hv1]; congr 1; omega)
      have hd2 : d2 = '0' := hexDigitVal_eq_zero (by rw [hv2]; congr 1; omega)
      have hd3 : d3 = '0' := hexDigitVal_eq_zero (by rw [hv3]; congr 1; omega)
      have hd4 : d4 = '0' := hexDigitVal_eq_zero (by rw [hv4]; congr 1; omega)
      have hd5 : d5 = '0' := hexDigitVal_eq_zero (by rw [hv5]; congr 1; omega)
      have hd6 : d6 = '0' := hexDigitVal_eq_zero (by rw [hv6]; congr 1; omega)
      refine hc (String.ext ?_)
      rw [hdata, hd1, hd2, hd3, hd4, hd5, hd6]
    rw [if_neg hcond]
    simp [normalizeHexColor, hb1, hb2, hb3, hm1, hm2, hm3]

/-- C10 witness: the uppercase color at `(5, 7)`. -/
theorem C10_roundtrip_lowercase_witness :
    ValidHexColor "#FF4500" ∧
    getPaint (setPaint ⟨fun _ => none⟩ 5 7 "#FF4500") 5 7 =
      (if ("#FF4500" : String) = "#000000" then none
       else some (normalizeHexColor "#FF4500")) :=
  ⟨⟨'F', 'F', '4', '5', '0', '0', rfl, by decide, by decide, by decide, by decide,
     by decide, by decide⟩,
   C10_roundtrip_lowercase ⟨fun _ => none⟩ 5 7 "#FF4500"
     ⟨'F', 'F', '4', '5', '0', '0', rfl, by decide, by decide, by decide, by decide,
      by decide, by decide⟩⟩

end Paintworld
